import Mathlib

/-!
Shallow embedding of the "Race to 18" dice-game server core
(`src/server/src/game/GameState.ts`, `Player.ts` inside `GameState.ts`,
`src/server/src/game/GameRoom.ts`, and the orchestration in
`src/server/src/socket/socketHandler.ts`).

Modelling conventions:
- JS numbers used as scores/indices are `Nat` (scores start at 0 and only
  grow by positive rolls).
- `GameRoom.currentTurnIndex` is `Option Nat`: `none` models the JS value
  `NaN`, which arises from `(i + 1) % 0` when `nextTurn()` runs on an empty
  roster.  JS comparisons with `NaN` are all false, which the model follows
  (`NaN >= n` is false, so `removePlayer` does not reset a `NaN` cursor).
- `players[c]` with `c` out of bounds or `NaN` yields `undefined` in JS, and
  reading `.status` on it throws; functions that can hit that path return
  `Except Unit _`, with `Except.error ()` standing for the thrown TypeError.
- Object mutation is explicit state passing: functions return the updated
  `GameState` / `Player` / room alongside their JS return value.
-/

inductive PlayerStatus where
  | active | bust | held | won
deriving DecidableEq, Repr

inductive GameStatus where
  | playing | bust | perfect | held | error
deriving DecidableEq, Repr

structure Player where
  id : String
  name : String
  socketId : String
  score : Nat
  status : PlayerStatus
  joinedAt : Nat
deriving DecidableEq, Repr

/-- The `Player` constructor: `new Player(id, name, socketId)` with
`score = 0`, `status = 'active'`, `joinedAt = Date.now()` (the timestamp is
passed explicitly since the model is pure). -/
def mkPlayer (id name socketId : String) (joinedAt : Nat) : Player :=
  { id := id, name := name, socketId := socketId
    score := 0, status := .active, joinedAt := joinedAt }

/-- Serialized public view (`Player.toJSON`). -/
structure PlayerData where
  id : String
  name : String
  score : Nat
  status : PlayerStatus
deriving DecidableEq, Repr

def Player.toJSON (p : Player) : PlayerData :=
  { id := p.id, name := p.name, score := p.score, status := p.status }

structure ScoreUpdateResult where
  status : GameStatus
  message : String
  newScore : Nat
deriving DecidableEq, Repr

structure HoldResult where
  status : GameStatus
  message : String
  finalScore : Option Nat
deriving DecidableEq, Repr

structure GameState where
  targetScore : Nat
  gameStarted : Bool
  gameOver : Bool
  winner : Option String
deriving DecidableEq, Repr

/-- The `GameState` constructor. -/
def initGameState : GameState :=
  { targetScore := 18, gameStarted := false, gameOver := false, winner := none }

/-- Embeds `GameState.updateScore(player, roll)`.  Returns the JS result
together with the mutated game state and player. -/
def updateScore (gs : GameState) (player : Player) (roll : Nat) :
    ScoreUpdateResult × GameState × Player :=
  let p : Player := { player with score := player.score + roll }
  if p.score > gs.targetScore then
    let p2 : Player := { p with status := .bust }
    ({ status := .bust
       message := p2.name ++ " BUSTED with " ++ toString p2.score ++ "!"
       newScore := p2.score }, gs, p2)
  else if p.score = gs.targetScore then
    let p2 : Player := { p with status := .won }
    let gs2 : GameState := { gs with gameOver := true, winner := some p2.id }
    ({ status := .perfect
       message := p2.name ++ " hit PERFECT 18! 🎉"
       newScore := p2.score }, gs2, p2)
  else
    ({ status := .playing
       message := p.name ++ " rolled " ++ toString roll ++ ". Score: " ++ toString p.score
       newScore := p.score }, gs, p)

/-- Embeds `GameState.hold(player)`.  The game state itself is only read
(`targetScore` for the message), never written. -/
def hold (gs : GameState) (player : Player) : HoldResult × Player :=
  if player.status ≠ .active then
    ({ status := .error
       message := "Player cannot hold in current state"
       finalScore := none }, player)
  else
    let p2 : Player := { player with status := .held }
    let distance : Int := (gs.targetScore : Int) - (p2.score : Int)
    ({ status := .held
       message := p2.name ++ " held at " ++ toString p2.score ++ " (" ++
                  toString distance ++ " away from 18)"
       finalScore := some p2.score }, p2)

/-- Pairs each list element with its index, starting from `i`; the model's
stand-in for array indices so that `determineWinner`'s in-place mutation of
the chosen element can be expressed with `List.set`. -/
def withIdx (i : Nat) : List Player → List (Nat × Player)
  | [] => []
  | p :: ps => (i, p) :: withIdx (i + 1) ps

/-- The filter `players.filter(p => p.status === 'held' || p.status === 'won')`
from `determineWinner`, kept with indices into the original array. -/
def candidates (ps : List Player) : List (Nat × Player) :=
  (withIdx 0 ps).filter (fun x => x.2.status = PlayerStatus.held ∨ x.2.status = PlayerStatus.won)

/-- Embeds `GameState.determineWinner(players)`: filter to held/won, reduce
keeping the current element only on strictly greater score (so the first
maximal candidate wins ties), set `winner` to its id and force its status
to `'won'` in the array. -/
def determineWinner (gs : GameState) (ps : List Player) : GameState × List Player :=
  match candidates ps with
  | [] => ({ gs with winner := none }, ps)
  | c :: rest =>
    let w := rest.foldl (fun best cur => if cur.2.score > best.2.score then cur else best) c
    ({ gs with winner := some w.2.id }, ps.set w.1 { w.2 with status := .won })

/-- Embeds `GameState.checkGameOver(players)`. -/
def checkGameOver (gs : GameState) (ps : List Player) : Bool × GameState × List Player :=
  if gs.gameOver then (true, gs, ps)
  else if (ps.filter (fun p => p.status = PlayerStatus.active)).length = 0 then
    let r := determineWinner { gs with gameOver := true } ps
    (true, r.1, r.2)
  else (false, gs, ps)

/-- Embeds `GameState.reset()`. -/
def resetGS (gs : GameState) : GameState :=
  { gs with gameStarted := false, gameOver := false, winner := none }

/-- Embeds `GameState.start()`. -/
def startGS (gs : GameState) : GameState :=
  { gs with gameStarted := true, gameOver := false, winner := none }

/-- Embeds `Player.reset()`. -/
def Player.resetP (p : Player) : Player :=
  { p with score := 0, status := .active }

/-- Room model (`GameRoom`): roster, one `GameState`, turn cursor
(`Option Nat`, `none` = JS `NaN`), capacity.  The `io` transport handle and
`createdAt` play no part in any game-logic claim. -/
structure Room where
  id : String
  players : List Player
  gameState : GameState
  currentTurnIndex : Option Nat
  maxPlayers : Nat
deriving DecidableEq, Repr

/-- The `GameRoom` constructor (`new GameRoom(id, io, maxPlayers)`). -/
def newRoom (id : String) (maxPlayers : Nat) : Room :=
  { id := id, players := [], gameState := initGameState
    currentTurnIndex := some 0, maxPlayers := maxPlayers }

/-- Serializable room snapshot (`RoomState` in `GameRoom.ts`). -/
structure RoomState where
  roomId : String
  players : List PlayerData
  currentTurn : Option String
  gameStarted : Bool
  gameOver : Bool
  winner : Option String
deriving DecidableEq, Repr

/-- Embeds `GameRoom.addPlayer(player)`: capacity check, duplicate-id check,
append, auto-start at roster size two. -/
def addPlayer (r : Room) (p : Player) : Bool × Room :=
  if r.players.length ≥ r.maxPlayers then (false, r)
  else if r.players.any (fun q => q.id == p.id) then (false, r)
  else
    let ps := r.players ++ [p]
    let gs := if ps.length ≥ 2 ∧ ¬ r.gameState.gameStarted
              then startGS r.gameState else r.gameState
    (true, { r with players := ps, gameState := gs })

/-- Embeds `GameRoom.removePlayer(playerId)`.  The cursor reset compares the
JS number `currentTurnIndex` with the shrunk length: `NaN >= n` is false, so
a `NaN` cursor (`none`) is left untouched. -/
def removePlayer (r : Room) (pid : String) : Bool × Room :=
  match r.players.findIdx? (fun p => p.id == pid) with
  | none => (false, r)
  | some i =>
    let ps := r.players.eraseIdx i
    let cursor : Option Nat :=
      match r.currentTurnIndex with
      | some c => if c ≥ ps.length then some 0 else some c
      | none => none
    let gs := if ps.length < 2 then { r.gameState with gameOver := true } else r.gameState
    (true, { r with players := ps, currentTurnIndex := cursor, gameState := gs })

/-- Embeds `GameRoom.nextTurn()`: `(i + 1) % players.length`.  On an empty
roster the JS modulus is `% 0`, producing `NaN` (`none`); `NaN + 1` stays
`NaN`. -/
def nextTurn (r : Room) : Room :=
  { r with currentTurnIndex :=
      match r.currentTurnIndex with
      | none => none
      | some c => if r.players.length = 0 then none else some ((c + 1) % r.players.length) }

/-- The `while (attempts < this.players.length)` loop of
`GameRoom.getCurrentPlayer`, with the remaining attempt budget as fuel.
Reading `players[c].status` with `c` = `NaN` or out of bounds throws
(`Except.error`). -/
def getCurrentPlayerLoop : Nat → Room → Except Unit (Option Player × Room)
  | 0, r => .ok (none, r)
  | fuel + 1, r =>
    match r.currentTurnIndex with
    | none => .error ()
    | some c =>
      match r.players[c]? with
      | none => .error ()
      | some p =>
        if p.status = PlayerStatus.active then .ok (some p, r)
        else getCurrentPlayerLoop fuel (nextTurn r)

/-- Embeds `GameRoom.getCurrentPlayer()`; the returned room carries the
cursor mutations the loop performed. -/
def getCurrentPlayer (r : Room) : Except Unit (Option Player × Room) :=
  if r.players.length = 0 then .ok (none, r)
  else getCurrentPlayerLoop r.players.length r

/-- The `currentTurn` field expression `getCurrentPlayer()?.id || null`:
the optional chaining collapses a missing player to `null`, and `||` also
collapses a falsy id (the empty string) to `null`. -/
def turnOf (cp : Option Player) : Option String :=
  match cp with
  | some p => if p.id = "" then none else some p.id
  | none => none

/-- Embeds `GameRoom.getState()`; getCurrentPlayer's cursor mutation is
carried into the returned room. -/
def getState (r : Room) : Except Unit (RoomState × Room) :=
  match getCurrentPlayer r with
  | .error e => .error e
  | .ok (cp, r2) =>
    .ok ({ roomId := r2.id
           players := r2.players.map Player.toJSON
           currentTurn := turnOf cp
           gameStarted := r2.gameState.gameStarted
           gameOver := r2.gameState.gameOver
           winner := r2.gameState.winner }, r2)

/-- Embeds `GameRoom.resetGame()`. -/
def resetGame (r : Room) : Room :=
  let gs := resetGS r.gameState
  let ps := r.players.map Player.resetP
  let gs2 := if ps.length ≥ 2 then startGS gs else gs
  { r with players := ps, gameState := gs2, currentTurnIndex := some 0 }

/-- Cursor churn of a `room.getState()` / `room.getCurrentPlayer()` call made
for a broadcast: only the cursor moves; if the call throws, the JS exception
propagates to the handler's catch with no further mutation. -/
def churn (r : Room) : Room :=
  match getCurrentPlayer r with
  | .ok (_, r2) => r2
  | .error _ => r

/-- The state mutation of `handleRollDice` after the sender was confirmed as
the current player: `updateScore` on the player under the cursor,
`checkGameOver`, then either the GAME_OVER broadcast (one `getState`) or
`nextTurn` followed by `getCurrentPlayer` and the TURN_CHANGED `getState`. -/
def rollApply (r : Room) (k : Nat) : Room :=
  match r.currentTurnIndex with
  | none => r
  | some c =>
    match r.players[c]? with
    | none => r
    | some p =>
      let u := updateScore r.gameState p k
      let ps := r.players.set c u.2.2
      let cg := checkGameOver u.2.1 ps
      let r2 : Room := { r with players := cg.2.2, gameState := cg.2.1 }
      if cg.1 then churn r2 else churn (churn (nextTurn r2))

/-- The state mutation of `handleHold` after the sender was confirmed as the
current player: `hold` on the player under the cursor, the
GAME_STATE_UPDATE broadcast's `getState`, `checkGameOver`, then either the
GAME_OVER `getState` or `nextTurn` plus two more cursor churns. -/
def holdApply (r : Room) : Room :=
  match r.currentTurnIndex with
  | none => r
  | some c =>
    match r.players[c]? with
    | none => r
    | some p =>
      let h := hold r.gameState p
      let r1 := churn { r with players := r.players.set c h.2 }
      let cg := checkGameOver r1.gameState r1.players
      let r2 : Room := { r1 with players := cg.2.2, gameState := cg.2.1 }
      if cg.1 then churn r2 else churn (churn (nextTurn r2))

/-- Room states reachable through the socket-handler orchestration: room
creation, join (`addPlayer` on a freshly constructed player), disconnect
(`removePlayer`), a roll or hold by the current player (dice results range
over 1..6), and new-game (`resetGame`). -/
inductive Reach : Room → Prop where
  | init (id : String) (mp : Nat) : Reach (newRoom id mp)
  | add {r : Room} (pid pname sid : String) (t : Nat) :
      Reach r → Reach (addPlayer r (mkPlayer pid pname sid t)).2
  | remove {r : Room} (pid : String) :
      Reach r → Reach (removePlayer r pid).2
  | roll {r r2 : Room} {p : Player} (k : Nat) :
      Reach r → getCurrentPlayer r = .ok (some p, r2) →
      1 ≤ k → k ≤ 6 → Reach (rollApply r2 k)
  | hold {r r2 : Room} {p : Player} :
      Reach r → getCurrentPlayer r = .ok (some p, r2) → Reach (holdApply r2)
  | reset {r : Room} : Reach r → Reach (resetGame r)

/-- Operations quantified over in the turn-cursor safety claim: arbitrary
interleavings of `addPlayer`, `removePlayer` and bare `nextTurn` calls. -/
inductive C4Op where
  | add (p : Player)
  | remove (pid : String)
  | next
deriving Repr

def applyC4Op (r : Room) : C4Op → Room
  | .add p => (addPlayer r p).2
  | .remove pid => (removePlayer r pid).2
  | .next => nextTurn r

/-- Replays an operation sequence against a freshly constructed room. -/
def runC4 (id : String) (maxPlayers : Nat) (ops : List C4Op) : Room :=
  ops.foldl applyC4Op (newRoom id maxPlayers)

/-- Holds when the sequence never invokes `nextTurn` on an empty roster (the
one interleaving whose `% 0` poisons the cursor with `NaN`). -/
def safeOps (r : Room) : List C4Op → Bool
  | [] => true
  | C4Op.add p :: rest => safeOps (addPlayer r p).2 rest
  | C4Op.remove pid :: rest => safeOps (removePlayer r pid).2 rest
  | C4Op.next :: rest => !r.players.isEmpty && safeOps (nextTurn r) rest

/-- What the spec asserts of a `getCurrentPlayer()` poll: it does not throw,
and it yields an active roster member, or `null` exactly when no roster
member is active. -/
def currentPlayerOk (r : Room) : Prop :=
  ∃ res r2, getCurrentPlayer r = .ok (res, r2) ∧
    ((∃ p, res = some p ∧ p ∈ r.players ∧ p.status = PlayerStatus.active) ∨
     (res = none ∧ ∀ p ∈ r.players, p.status ≠ PlayerStatus.active))

/-- Well-formed cursor: an actual number (not `NaN`) that is in bounds, or 0
(the reset value, which is in bounds whenever the roster is non-empty). -/
def CursorWF (r : Room) : Prop :=
  ∃ c, r.currentTurnIndex = some c ∧ (c < r.players.length ∨ c = 0)

/-- Trace for the invariant violation: players A and B join, A (current
player) holds, then B leaves, dropping the roster below two. -/
def cexRoom2 : Room :=
  (addPlayer (addPlayer (newRoom "room1" 4) (mkPlayer "A" "A" "sA" 0)).2
    (mkPlayer "B" "B" "sB" 0)).2

def cexRoom3 : Room := holdApply cexRoom2

def cexRoomBad : Room := (removePlayer cexRoom3 "B").2

/-- Trace for a reachable winner: a lone player A rolls three sixes to a
perfect 18 (the roll handler checks only that the sender is the current
player, not that the game has started). -/
def wRoom1 : Room := (addPlayer (newRoom "w" 4) (mkPlayer "A" "A" "sA" 0)).2

def wRoom4 : Room := rollApply (rollApply (rollApply wRoom1 6) 6) 6

/-- Trace for the other invariant violation: A and B alternate rolls
(6,6 — 6,6 — 5,5), A's 2 busts A at 19, B's 1 lands a perfect 18, winning;
then B disconnects.  `removePlayer` never clears `winner`, so the room
keeps winner = B while the roster holds only the busted A. -/
def bRoom0 : Room :=
  (addPlayer (addPlayer (newRoom "b" 4) (mkPlayer "A" "A" "sA" 0)).2
    (mkPlayer "B" "B" "sB" 0)).2

def bRoom1 : Room := rollApply bRoom0 6

def bRoom2 : Room := rollApply bRoom1 6

def bRoom3 : Room := rollApply bRoom2 6

def bRoom4 : Room := rollApply bRoom3 6

def bRoom5 : Room := rollApply bRoom4 5

def bRoom6 : Room := rollApply bRoom5 5

def bRoom7 : Room := rollApply bRoom6 2

def bRoom8 : Room := rollApply bRoom7 1

def cexRoomBad2 : Room := (removePlayer bRoom8 "B").2

example : (updateScore initGameState (mkPlayer "A" "A" "s" 0) 6).1.status = .playing := by decide
example :
    (updateScore { initGameState with gameStarted := true }
      { mkPlayer "A" "Alice" "s" 0 with score := 12 } 6).1.status = .perfect := by decide
example :
    (determineWinner initGameState
      [{ mkPlayer "A" "A" "s" 0 with score := 16, status := .held },
       { mkPlayer "B" "B" "s" 0 with score := 16, status := .held }]).1.winner
      = some "A" := by decide

lemma room_eta (r : Room) (c : Option Nat) (h : r.currentTurnIndex = c) :
    { r with currentTurnIndex := c } = r := by
  cases r; simp_all

lemma nested_cursor_update (r : Room) (a b : Option Nat) :
    { { r with currentTurnIndex := a } with currentTurnIndex := b }
      = { r with currentTurnIndex := b } := rfl

/-- The polling loop only ever rewrites the cursor. -/
lemma getCurrentPlayerLoop_preserves (fuel : Nat) :
    ∀ (r : Room) (res : Option Player) (r2 : Room),
      getCurrentPlayerLoop fuel r = .ok (res, r2) →
      ∃ cur, r2 = { r with currentTurnIndex := cur } := by
  induction fuel with
  | zero =>
    intro r res r2 h
    simp only [getCurrentPlayerLoop, Except.ok.injEq, Prod.mk.injEq] at h
    exact ⟨r.currentTurnIndex, by rw [← h.2]⟩
  | succ n ih =>
    intro r res r2 h
    cases hc : r.currentTurnIndex with
    | none => simp [getCurrentPlayerLoop, hc] at h
    | some c =>
      cases hp : r.players[c]? with
      | none => simp [getCurrentPlayerLoop, hc, hp] at h
      | some p =>
        simp only [getCurrentPlayerLoop, hc, hp] at h
        by_cases ha : p.status = PlayerStatus.active
        · rw [if_pos ha] at h
          simp only [Except.ok.injEq, Prod.mk.injEq] at h
          exact ⟨r.currentTurnIndex, by rw [← h.2]⟩
        · rw [if_neg ha] at h
          obtain ⟨cur, hcur⟩ := ih (nextTurn r) res r2 h
          exact ⟨cur, by rw [hcur]; rfl⟩

/-- Same fact lifted to `getCurrentPlayer`. -/
lemma getCurrentPlayer_preserves (r : Room) (res : Option Player) (r2 : Room)
    (h : getCurrentPlayer r = .ok (res, r2)) :
    ∃ cur, r2 = { r with currentTurnIndex := cur } := by
  unfold getCurrentPlayer at h
  by_cases hz : r.players.length = 0
  · rw [if_pos hz] at h
    simp only [Except.ok.injEq, Prod.mk.injEq] at h
    exact ⟨r.currentTurnIndex, by rw [← h.2]⟩
  · rw [if_neg hz] at h
    exact getCurrentPlayerLoop_preserves _ r res r2 h

lemma nextTurn_cursor (r : Room) (c : Nat) (hc : r.currentTurnIndex = some c)
    (hn : r.players.length ≠ 0) :
    (nextTurn r).currentTurnIndex = some ((c + 1) % r.players.length) := by
  simp [nextTurn, hc, hn]

lemma cursor_mod_shift (c j n : Nat) : ((c + 1) % n + j) % n = (c + (j + 1)) % n := by
  rw [Nat.mod_add_mod]
  congr 1
  omega

/-- Full characterisation of the polling loop from an in-bounds cursor: it
never throws, and either finds an active player `j < fuel` steps ahead
(cyclically), or reports `none` having advanced the cursor exactly `fuel`
steps past only non-active players. -/
lemma getCurrentPlayerLoop_spec (fuel : Nat) :
    ∀ (r : Room) (c : Nat), r.currentTurnIndex = some c → c < r.players.length →
      (∃ p j, j < fuel ∧ p.status = PlayerStatus.active ∧
        r.players[(c + j) % r.players.length]? = some p ∧
        getCurrentPlayerLoop fuel r =
          .ok (some p, { r with currentTurnIndex := some ((c + j) % r.players.length) })) ∨
      (getCurrentPlayerLoop fuel r =
          .ok (none, { r with currentTurnIndex := some ((c + fuel) % r.players.length) }) ∧
        ∀ j < fuel, ∀ q, r.players[(c + j) % r.players.length]? = some q →
          q.status ≠ PlayerStatus.active) := by
  induction fuel with
  | zero =>
    intro r c hc hlt
    right
    constructor
    · rw [Nat.add_zero, Nat.mod_eq_of_lt hlt, room_eta r (some c) hc]
      rfl
    · intro j hj; omega
  | succ n ih =>
    intro r c hc hlt
    have hn0 : r.players.length ≠ 0 := by omega
    have hps : (nextTurn r).players = r.players := rfl
    obtain ⟨p, hp⟩ : ∃ p, r.players[c]? = some p :=
      ⟨r.players[c], List.getElem?_eq_getElem hlt⟩
    have hidx0 : (c + 0) % r.players.length = c := by
      rw [Nat.add_zero]; exact Nat.mod_eq_of_lt hlt
    by_cases ha : p.status = PlayerStatus.active
    · left
      refine ⟨p, 0, by omega, ha, ?_, ?_⟩
      · rw [hidx0]; exact hp
      · rw [hidx0, room_eta r (some c) hc]
        simp [getCurrentPlayerLoop, hc, hp, ha]
    · have hc2 : (nextTurn r).currentTurnIndex = some ((c + 1) % r.players.length) :=
        nextTurn_cursor r c hc hn0
      have hlt2 : (c + 1) % r.players.length < (nextTurn r).players.length := by
        rw [hps]; exact Nat.mod_lt _ (by omega)
      have hloop : getCurrentPlayerLoop (n + 1) r = getCurrentPlayerLoop n (nextTurn r) := by
        simp [getCurrentPlayerLoop, hc, hp, ha]
      rcases ih (nextTurn r) ((c + 1) % r.players.length) hc2 hlt2 with
        ⟨q, j, hj, hqa, hq, heq⟩ | ⟨heq, hall⟩
      · left
        have hshift : ((c + 1) % r.players.length + j) % r.players.length
            = (c + (j + 1)) % r.players.length := cursor_mod_shift c j _
        rw [hps] at hq
        refine ⟨q, j + 1, by omega, hqa, ?_, ?_⟩
        · rw [← hshift]; exact hq
        · rw [hloop, heq, hps, hshift]; rfl
      · right
        have hshiftn : ((c + 1) % r.players.length + n) % r.players.length
            = (c + (n + 1)) % r.players.length := cursor_mod_shift c n _
        constructor
        · rw [hloop, heq, hps, hshiftn]; rfl
        · intro j hj q hq
          cases j with
          | zero =>
            rw [hidx0, hp] at hq
            cases hq
            exact ha
          | succ j2 =>
            have h2 := hall j2 (by omega) q
            rw [hps, cursor_mod_shift] at h2
            exact h2 hq

/-- A poll that starts on an active player returns immediately, moving
nothing. -/
lemma getCurrentPlayer_at_active (r : Room) (m : Nat) (p : Player)
    (hc : r.currentTurnIndex = some m) (hp : r.players[m]? = some p)
    (ha : p.status = PlayerStatus.active) :
    getCurrentPlayer r = .ok (some p, r) := by
  have hm : m < r.players.length := by
    rw [List.getElem?_eq_some] at hp; exact hp.1
  have hz : ¬ r.players.length = 0 := by omega
  unfold getCurrentPlayer
  rw [if_neg hz]
  obtain ⟨n, hn⟩ : ∃ n, r.players.length = n + 1 := ⟨r.players.length - 1, by omega⟩
  rw [hn]
  simp [getCurrentPlayerLoop, hc, hp, ha]

/-- Full behaviour of `getCurrentPlayer()` from a well-formed cursor: no
throw, the result is an active roster member or `none` exactly when no
member is active, only the cursor moves, well-formedness survives, and an
immediate second poll returns the same answer from the same state. -/
lemma getCurrentPlayer_spec (r : Room) (h : CursorWF r) :
    ∃ res r2, getCurrentPlayer r = .ok (res, r2) ∧
      r2.id = r.id ∧ r2.players = r.players ∧ r2.gameState = r.gameState ∧
      r2.maxPlayers = r.maxPlayers ∧ CursorWF r2 ∧
      ((∃ p, res = some p ∧ p ∈ r.players ∧ p.status = PlayerStatus.active) ∨
       (res = none ∧ ∀ p ∈ r.players, p.status ≠ PlayerStatus.active)) ∧
      getCurrentPlayer r2 = .ok (res, r2) := by
  obtain ⟨c, hc, hcb⟩ := h
  by_cases hz : r.players.length = 0
  · have hnil : r.players = [] := List.length_eq_zero.mp hz
    have hok : getCurrentPlayer r = .ok (none, r) := by
      unfold getCurrentPlayer; rw [if_pos hz]
    refine ⟨none, r, hok, rfl, rfl, rfl, rfl, ⟨c, hc, hcb⟩, ?_, hok⟩
    right
    refine ⟨rfl, ?_⟩
    intro p hp
    rw [hnil] at hp
    cases hp
  · have hlt : c < r.players.length := by
      rcases hcb with h1 | h1
      · exact h1
      · omega
    rcases getCurrentPlayerLoop_spec r.players.length r c hc hlt with
      ⟨p, j, _, hpa, hpg, heq⟩ | ⟨heq, hall⟩
    · have hmlt : (c + j) % r.players.length < r.players.length :=
        Nat.mod_lt _ (by omega)
      have hok : getCurrentPlayer r =
          .ok (some p, { r with currentTurnIndex := some ((c + j) % r.players.length) }) := by
        unfold getCurrentPlayer; rw [if_neg hz]; exact heq
      refine ⟨some p, _, hok, rfl, rfl, rfl, rfl,
        ⟨(c + j) % r.players.length, rfl, Or.inl hmlt⟩, ?_, ?_⟩
      · exact Or.inl ⟨p, rfl, List.getElem?_mem hpg, hpa⟩
      · exact getCurrentPlayer_at_active _ ((c + j) % r.players.length) p rfl hpg hpa
    · have hcl : (c + r.players.length) % r.players.length = c := by
        rw [Nat.add_mod_right]; exact Nat.mod_eq_of_lt hlt
      rw [hcl, room_eta r (some c) hc] at heq
      have hok : getCurrentPlayer r = .ok (none, r) := by
        unfold getCurrentPlayer; rw [if_neg hz]; exact heq
      refine ⟨none, r, hok, rfl, rfl, rfl, rfl, ⟨c, hc, hcb⟩, ?_, hok⟩
      right
      refine ⟨rfl, ?_⟩
      intro p hp
      obtain ⟨i, hilt, hi⟩ := List.mem_iff_getElem.mp hp
      have hidx : (c + (i + r.players.length - c) % r.players.length) % r.players.length
          = i := by
        rw [Nat.add_mod_mod]
        have h2 : c + (i + r.players.length - c) = i + r.players.length := by omega
        rw [h2, Nat.add_mod_right]
        exact Nat.mod_eq_of_lt hilt
      have hjlt : (i + r.players.length - c) % r.players.length < r.players.length :=
        Nat.mod_lt _ (by omega)
      have := hall _ hjlt p (by rw [hidx, List.getElem?_eq_getElem hilt, hi])
      exact this

lemma determineWinner_length (gs : GameState) (ps : List Player) :
    (determineWinner gs ps).2.length = ps.length := by
  unfold determineWinner
  cases hc : candidates ps with
  | nil => rfl
  | cons c rest => simp [List.length_set]

lemma checkGameOver_length (gs : GameState) (ps : List Player) :
    (checkGameOver gs ps).2.2.length = ps.length := by
  unfold checkGameOver
  split_ifs with h1 h2
  · rfl
  · exact determineWinner_length _ _
  · rfl

/-- A broadcast-time poll moves only the cursor, whether or not it throws. -/
lemma churn_fields (r : Room) :
    (churn r).id = r.id ∧ (churn r).players = r.players ∧
    (churn r).gameState = r.gameState ∧ (churn r).maxPlayers = r.maxPlayers := by
  unfold churn
  cases hok : getCurrentPlayer r with
  | error e => exact ⟨rfl, rfl, rfl, rfl⟩
  | ok v =>
    obtain ⟨res, r2⟩ := v
    obtain ⟨cur, hcur⟩ := getCurrentPlayer_preserves r res r2 hok
    rw [hcur]
    exact ⟨rfl, rfl, rfl, rfl⟩

lemma cursorWF_newRoom (id : String) (mp : Nat) : CursorWF (newRoom id mp) :=
  ⟨0, rfl, Or.inr rfl⟩

lemma cursorWF_addPlayer (r : Room) (p : Player) (h : CursorWF r) :
    CursorWF (addPlayer r p).2 := by
  obtain ⟨c, hc, hcb⟩ := h
  unfold addPlayer
  split_ifs with h1 h2
  · exact ⟨c, hc, hcb⟩
  · exact ⟨c, hc, hcb⟩
  · refine ⟨c, hc, ?_⟩
    rcases hcb with h3 | h3
    · left; simp only [List.length_append]; omega
    · right; exact h3

lemma cursorWF_removePlayer (r : Room) (pid : String) (h : CursorWF r) :
    CursorWF (removePlayer r pid).2 := by
  obtain ⟨c, hc, hcb⟩ := h
  unfold removePlayer
  cases hidx : r.players.findIdx? (fun p => p.id == pid) with
  | none => exact ⟨c, hc, hcb⟩
  | some i =>
    rw [hc]
    dsimp only
    by_cases h2 : c ≥ (r.players.eraseIdx i).length
    · rw [if_pos h2]
      exact ⟨0, rfl, Or.inr rfl⟩
    · rw [if_neg h2]
      exact ⟨c, rfl, Or.inl (by dsimp only; omega)⟩

lemma cursorWF_nextTurn (r : Room) (h : CursorWF r) (hne : r.players.length ≠ 0) :
    CursorWF (nextTurn r) := by
  obtain ⟨c, hc, _⟩ := h
  exact ⟨(c + 1) % r.players.length, by simp [nextTurn, hc, hne],
    Or.inl (Nat.mod_lt _ (by omega))⟩

lemma cursorWF_churn (r : Room) (h : CursorWF r) : CursorWF (churn r) := by
  obtain ⟨res, r2, hok, _, hps, _, _, hwf, _, _⟩ := getCurrentPlayer_spec r h
  unfold churn
  rw [hok]
  exact hwf

lemma cursorWF_resetGame (r : Room) : CursorWF (resetGame r) :=
  ⟨0, rfl, Or.inr rfl⟩

lemma cursorWF_replace (r : Room) (ps : List Player) (gs : GameState)
    (hlen : ps.length = r.players.length) (h : CursorWF r) :
    CursorWF { r with players := ps, gameState := gs } := by
  obtain ⟨c, hc, hcb⟩ := h
  refine ⟨c, hc, ?_⟩
  dsimp only
  rw [hlen]
  exact hcb

lemma cursorWF_rollApply (r : Room) (k : Nat) (h : CursorWF r) :
    CursorWF (rollApply r k) := by
  obtain ⟨c, hc, hcb⟩ := h
  unfold rollApply
  rw [hc]
  dsimp only
  cases hp : r.players[c]? with
  | none => exact ⟨c, hc, hcb⟩
  | some p =>
    have hlt : c < r.players.length := by
      rw [List.getElem?_eq_some] at hp; exact hp.1
    dsimp only
    have hwfc : CursorWF { r with currentTurnIndex := some c } := ⟨c, rfl, Or.inl hlt⟩
    have hlen : ((checkGameOver (updateScore r.gameState p k).2.1
        (r.players.set c (updateScore r.gameState p k).2.2)).2.2).length
        = ({ r with currentTurnIndex := some c } : Room).players.length := by
      rw [checkGameOver_length, List.length_set]
    have hwf2 := cursorWF_replace { r with currentTurnIndex := some c } _
      ((checkGameOver (updateScore r.gameState p k).2.1
        (r.players.set c (updateScore r.gameState p k).2.2)).2.1) hlen hwfc
    split_ifs
    · exact cursorWF_churn _ hwf2
    · refine cursorWF_churn _ (cursorWF_churn _ (cursorWF_nextTurn _ hwf2 ?_))
      dsimp only
      rw [checkGameOver_length, List.length_set]
      omega

lemma cursorWF_holdApply (r : Room) (h : CursorWF r) :
    CursorWF (holdApply r) := by
  obtain ⟨c, hc, hcb⟩ := h
  unfold holdApply
  rw [hc]
  dsimp only
  cases hp : r.players[c]? with
  | none => exact ⟨c, hc, hcb⟩
  | some p =>
    have hlt : c < r.players.length := by
      rw [List.getElem?_eq_some] at hp; exact hp.1
    dsimp only
    have hwfX : CursorWF { r with players := r.players.set c (hold r.gameState p).2, currentTurnIndex := some c } :=
      ⟨c, rfl, Or.inl (by dsimp only; rw [List.length_set]; exact hlt)⟩
    have hwfc := cursorWF_churn _ hwfX
    have hlen : ((checkGameOver (churn { r with players := r.players.set c (hold r.gameState p).2, currentTurnIndex := some c }).gameState (churn { r with players := r.players.set c (hold r.gameState p).2, currentTurnIndex := some c }).players).2.2).length = (churn { r with players := r.players.set c (hold r.gameState p).2, currentTurnIndex := some c }).players.length :=
      checkGameOver_length _ _
    have hwf2 := cursorWF_replace _ _
      ((checkGameOver (churn { r with players := r.players.set c (hold r.gameState p).2, currentTurnIndex := some c }).gameState (churn { r with players := r.players.set c (hold r.gameState p).2, currentTurnIndex := some c }).players).2.1) hlen hwfc
    split_ifs
    · exact cursorWF_churn _ hwf2
    · refine cursorWF_churn _ (cursorWF_churn _ (cursorWF_nextTurn _ hwf2 ?_))
      dsimp only
      rw [checkGameOver_length,
        (churn_fields { r with players := r.players.set c (hold r.gameState p).2, currentTurnIndex := some c }).2.1]
      dsimp only
      rw [List.length_set]
      omega

/-- The room handed back by a successful `getCurrentPlayer` poll keeps a
well-formed cursor. -/
lemma cursorWF_of_poll (r0 : Room) (p : Player) (r2 : Room) (hwf : CursorWF r0)
    (hok : getCurrentPlayer r0 = .ok (some p, r2)) : CursorWF r2 := by
  obtain ⟨res, r2x, hok2, _, _, _, _, hwf2, _, _⟩ := getCurrentPlayer_spec r0 hwf
  rw [hok] at hok2
  injection hok2 with hv
  injection hv with hres hr2
  rw [← hr2] at hwf2
  exact hwf2

/-- Every room reachable through the socket-handler orchestration keeps an
in-bounds (or zero) numeric cursor; in particular the `NaN` degradation of a
bare `nextTurn()` on an empty roster never occurs in orchestrated use. -/
lemma reach_cursorWF (r : Room) (h : Reach r) : CursorWF r := by
  induction h with
  | init id mp => exact cursorWF_newRoom id mp
  | add pid pname sid t _ ih => exact cursorWF_addPlayer _ _ ih
  | remove pid _ ih => exact cursorWF_removePlayer _ _ ih
  | @roll r0 r2 p k _ hok _ _ ih => exact cursorWF_rollApply _ k (cursorWF_of_poll r0 p r2 ih hok)
  | @hold r0 r2 p _ hok ih => exact cursorWF_holdApply _ (cursorWF_of_poll r0 p r2 ih hok)
  | reset _ _ => exact cursorWF_resetGame _

lemma updateScore_GInv (gs : GameState) (p : Player) (k : Nat)
    (h : gs.winner ≠ none → gs.gameOver = true) :
    (updateScore gs p k).2.1.winner ≠ none → (updateScore gs p k).2.1.gameOver = true := by
  unfold updateScore
  dsimp only
  split_ifs with h1 h2
  · exact h
  · intro _; rfl
  · exact h

lemma determineWinner_gameOver_eq (gs : GameState) (ps : List Player) :
    (determineWinner gs ps).1.gameOver = gs.gameOver := by
  unfold determineWinner
  cases hc : candidates ps with
  | nil => rfl
  | cons c rest => rfl

lemma checkGameOver_GInv (gs : GameState) (ps : List Player)
    (h : gs.winner ≠ none → gs.gameOver = true) :
    (checkGameOver gs ps).2.1.winner ≠ none → (checkGameOver gs ps).2.1.gameOver = true := by
  unfold checkGameOver
  split_ifs with h1 h2
  · exact h
  · intro _
    dsimp only
    rw [determineWinner_gameOver_eq]
  · exact h

lemma addPlayer_GInv (r : Room) (p : Player)
    (h : r.gameState.winner ≠ none → r.gameState.gameOver = true) :
    (addPlayer r p).2.gameState.winner ≠ none → (addPlayer r p).2.gameState.gameOver = true := by
  unfold addPlayer
  dsimp only
  split_ifs with h1 h2 h3
  · exact h
  · exact h
  · intro hw; exact absurd rfl hw
  · exact h

lemma removePlayer_GInv (r : Room) (pid : String)
    (h : r.gameState.winner ≠ none → r.gameState.gameOver = true) :
    (removePlayer r pid).2.gameState.winner ≠ none →
      (removePlayer r pid).2.gameState.gameOver = true := by
  unfold removePlayer
  cases hidx : r.players.findIdx? (fun p => p.id == pid) with
  | none => exact h
  | some i =>
    dsimp only
    split_ifs with h1
    · intro _; rfl
    · exact h

lemma churn_GInv (r : Room)
    (h : r.gameState.winner ≠ none → r.gameState.gameOver = true) :
    (churn r).gameState.winner ≠ none → (churn r).gameState.gameOver = true := by
  rw [(churn_fields r).2.2.1]
  exact h

lemma rollApply_GInv (r : Room) (k : Nat)
    (h : r.gameState.winner ≠ none → r.gameState.gameOver = true) :
    (rollApply r k).gameState.winner ≠ none → (rollApply r k).gameState.gameOver = true := by
  unfold rollApply
  cases hc : r.currentTurnIndex with
  | none => exact h
  | some c =>
    dsimp only
    cases hp : r.players[c]? with
    | none => exact h
    | some p =>
      dsimp only
      split_ifs
      · exact churn_GInv _ (checkGameOver_GInv _ _ (updateScore_GInv _ _ _ h))
      · exact churn_GInv _ (churn_GInv _ (checkGameOver_GInv _ _ (updateScore_GInv _ _ _ h)))

lemma holdApply_GInv (r : Room)
    (h : r.gameState.winner ≠ none → r.gameState.gameOver = true) :
    (holdApply r).gameState.winner ≠ none → (holdApply r).gameState.gameOver = true := by
  unfold holdApply
  cases hc : r.currentTurnIndex with
  | none => exact h
  | some c =>
    dsimp only
    cases hp : r.players[c]? with
    | none => exact h
    | some p =>
      dsimp only
      have h1 : (churn { r with players := r.players.set c (hold r.gameState p).2, currentTurnIndex := some c }).gameState.winner ≠ none → (churn { r with players := r.players.set c (hold r.gameState p).2, currentTurnIndex := some c }).gameState.gameOver = true :=
        churn_GInv _ h
      split_ifs
      · exact churn_GInv _ (checkGameOver_GInv _ _ h1)
      · exact churn_GInv _ (churn_GInv _ (checkGameOver_GInv _ _ h1))

lemma resetGame_GInv (r : Room) :
    (resetGame r).gameState.winner ≠ none → (resetGame r).gameState.gameOver = true := by
  unfold resetGame
  dsimp only
  split_ifs
  · intro hw; exact absurd rfl hw
  · intro hw; exact absurd rfl hw

/-- The `reduce` in `determineWinner` picks the first element of maximal
score: either the accumulator survives because nothing strictly beats it, or
the list splits around the returned element with all earlier scores (and the
accumulator) strictly below it and all later scores at most it. -/
lemma foldl_pick_spec (l : List (Nat × Player)) :
    ∀ a : Nat × Player,
      ∃ w, l.foldl (fun best cur => if cur.2.score > best.2.score then cur else best) a = w ∧
        ((w = a ∧ ∀ d ∈ l, d.2.score ≤ a.2.score) ∨
         (∃ l1 l2, l = l1 ++ w :: l2 ∧ a.2.score < w.2.score ∧
           (∀ d ∈ l1, d.2.score < w.2.score) ∧ (∀ d ∈ l2, d.2.score ≤ w.2.score))) := by
  induction l with
  | nil =>
    intro a
    exact ⟨a, rfl, Or.inl ⟨rfl, by intro d hd; cases hd⟩⟩
  | cons x xs ih =>
    intro a
    by_cases hx : x.2.score > a.2.score
    · obtain ⟨w, hw, hcase⟩ := ih x
      refine ⟨w, ?_, ?_⟩
      · rw [List.foldl_cons, if_pos hx]; exact hw
      · right
        rcases hcase with ⟨hwa, hall⟩ | ⟨l1, l2, hsplit, hlt, hbefore, hafter⟩
        · subst hwa
          refine ⟨[], xs, rfl, hx, ?_, hall⟩
          intro d hd
          cases hd
        · refine ⟨x :: l1, l2, by rw [hsplit]; rfl, by omega, ?_, hafter⟩
          intro d hd
          rcases List.mem_cons.mp hd with h | h
          · subst h; omega
          · exact hbefore d h
    · obtain ⟨w, hw, hcase⟩ := ih a
      refine ⟨w, ?_, ?_⟩
      · rw [List.foldl_cons, if_neg hx]; exact hw
      · rcases hcase with ⟨hwa, hall⟩ | ⟨l1, l2, hsplit, hlt, hbefore, hafter⟩
        · left
          refine ⟨hwa, ?_⟩
          intro d hd
          rcases List.mem_cons.mp hd with h | h
          · subst h; omega
          · exact hall d h
        · right
          refine ⟨x :: l1, l2, by rw [hsplit]; rfl, hlt, ?_, hafter⟩
          intro d hd
          rcases List.mem_cons.mp hd with h | h
          · subst h; omega
          · exact hbefore d h

/-- Membership in `withIdx` is exactly in-bounds indexed lookup. -/
lemma mem_withIdx (ps : List Player) :
    ∀ (i j : Nat) (p : Player),
      ((j, p) ∈ withIdx i ps) ↔ (i ≤ j ∧ ps[j - i]? = some p) := by
  induction ps with
  | nil =>
    intro i j p
    simp [withIdx]
  | cons q qs ih =>
    intro i j p
    simp only [withIdx, List.mem_cons]
    constructor
    · rintro (h | h)
      · have h1 : j = i ∧ p = q := by
          constructor
          · exact congrArg Prod.fst h
          · exact congrArg Prod.snd h
        obtain ⟨hj, hp⟩ := h1
        subst hj; subst hp
        simp
      · obtain ⟨hle, hget⟩ := (ih (i + 1) j p).mp h
        refine ⟨by omega, ?_⟩
        have hidx : j - i = (j - (i + 1)) + 1 := by omega
        rw [hidx, List.getElem?_cons_succ]
        exact hget
    · rintro ⟨hle, hget⟩
      by_cases hji : j = i
      · subst hji
        left
        rw [Nat.sub_self, List.getElem?_cons_zero] at hget
        injection hget with hq
        rw [hq]
      · right
        refine (ih (i + 1) j p).mpr ⟨by omega, ?_⟩
        have hidx : j - i = (j - (i + 1)) + 1 := by omega
        rw [hidx, List.getElem?_cons_succ] at hget
        exact hget

/-- C1: for every player with score s and roll r in [1,6] against the
default target 18, `updateScore` sets the score to s+r (never below s) and
returns bust iff s+r > 18 (marking the player bust, game state untouched),
perfect iff s+r = 18 (marking the player won, setting gameOver and winner),
and playing otherwise (player status and game state untouched). -/
theorem updateScore_spec (gs : GameState) (p : Player) (k : Nat)
    (htarget : gs.targetScore = 18) (_h1 : 1 ≤ k) (_h6 : k ≤ 6) :
    (updateScore gs p k).2.2.score = p.score + k ∧
    p.score ≤ (updateScore gs p k).2.2.score ∧
    (updateScore gs p k).1.newScore = p.score + k ∧
    ((updateScore gs p k).1.status = GameStatus.bust ↔ p.score + k > 18) ∧
    ((updateScore gs p k).1.status = GameStatus.bust →
      (updateScore gs p k).2.2.status = PlayerStatus.bust ∧ (updateScore gs p k).2.1 = gs) ∧
    ((updateScore gs p k).1.status = GameStatus.perfect ↔ p.score + k = 18) ∧
    ((updateScore gs p k).1.status = GameStatus.perfect →
      (updateScore gs p k).2.2.status = PlayerStatus.won ∧
      (updateScore gs p k).2.1.gameOver = true ∧
      (updateScore gs p k).2.1.winner = some p.id) ∧
    ((updateScore gs p k).1.status = GameStatus.playing ↔ p.score + k < 18) ∧
    ((updateScore gs p k).1.status = GameStatus.playing →
      (updateScore gs p k).2.2.status = p.status ∧ (updateScore gs p k).2.1 = gs) := by
  unfold updateScore
  dsimp only
  rw [htarget]
  split_ifs with hb hp
  · refine ⟨rfl, Nat.le_add_right p.score k, rfl, by simp [hb], by simp, ?_, by simp, ?_, by simp⟩
    · simp only [reduceCtorEq, false_iff]; omega
    · simp only [reduceCtorEq, false_iff]; omega
  · refine ⟨rfl, Nat.le_add_right p.score k, rfl, ?_, by simp, by simp [hp], ?_, ?_, by simp⟩
    · simp only [reduceCtorEq, false_iff]; omega
    · intro _; exact ⟨rfl, rfl, rfl⟩
    · simp only [reduceCtorEq, false_iff]; omega
  · refine ⟨rfl, Nat.le_add_right p.score k, rfl, ?_, by simp, ?_, by simp, ?_, ?_⟩
    · simp only [reduceCtorEq, false_iff]; omega
    · simp only [reduceCtorEq, false_iff]; omega
    · simp only [true_iff]; omega
    · intro _; exact ⟨rfl, rfl⟩

/-- C5: `checkGameOver` returns true changing nothing when gameOver is
already set; otherwise, with no active player left it sets gameOver, runs
winner determination and returns true; otherwise it returns false changing
nothing. -/
theorem checkGameOver_spec (gs : GameState) (ps : List Player) :
    (gs.gameOver = true → checkGameOver gs ps = (true, gs, ps)) ∧
    (gs.gameOver = false → (∀ p ∈ ps, p.status ≠ PlayerStatus.active) →
      checkGameOver gs ps =
        (true, (determineWinner { gs with gameOver := true } ps).1,
          (determineWinner { gs with gameOver := true } ps).2)) ∧
    (gs.gameOver = false → (∃ p ∈ ps, p.status = PlayerStatus.active) →
      checkGameOver gs ps = (false, gs, ps)) := by
  refine ⟨?_, ?_, ?_⟩
  · intro hgo
    unfold checkGameOver
    rw [if_pos hgo]
  · intro hgo hall
    unfold checkGameOver
    rw [if_neg (by simp [hgo])]
    have hfil : (ps.filter (fun p => p.status = PlayerStatus.active)).length = 0 := by
      rw [List.length_eq_zero, List.filter_eq_nil_iff]
      intro a ha
      simp only [decide_eq_true_eq]
      exact hall a ha
    rw [if_pos hfil]
  · intro hgo hex
    obtain ⟨p, hp, hpa⟩ := hex
    unfold checkGameOver
    rw [if_neg (by simp [hgo])]
    have hmem : p ∈ ps.filter (fun p => p.status = PlayerStatus.active) :=
      List.mem_filter.mpr ⟨hp, by simp [hpa]⟩
    rw [if_neg ?_]
    intro h0
    rw [List.length_eq_zero] at h0
    rw [h0] at hmem
    cases hmem

/-- C6: `hold` returns an error result exactly when the player is not
active, leaving the player untouched in that case; on an active player it
sets status held and reports the held score. -/
theorem hold_spec (gs : GameState) (p : Player) :
    ((hold gs p).1.status = GameStatus.error ↔ p.status ≠ PlayerStatus.active) ∧
    (p.status ≠ PlayerStatus.active → (hold gs p).2 = p) ∧
    (p.status = PlayerStatus.active →
      (hold gs p).2.status = PlayerStatus.held ∧ (hold gs p).2.score = p.score ∧
      (hold gs p).1.status = GameStatus.held ∧ (hold gs p).1.finalScore = some p.score) := by
  unfold hold
  split_ifs with hna
  · refine ⟨by simp [hna], fun _ => rfl, fun ha => absurd ha hna⟩
  · have ha : p.status = PlayerStatus.active := not_not.mp hna
    refine ⟨by simp [ha], fun h => absurd ha h, fun _ => ⟨rfl, rfl, rfl, rfl⟩⟩

/-- C10: `updateScore` checks neither the player's status nor gameOver: it
adds the roll to a bust/held/won player even after the game ended, and a
resulting score equal to the target overwrites the established winner. -/
theorem updateScore_no_precondition (gs : GameState) (p : Player) (k : Nat) (w : String)
    (_hst : p.status ≠ PlayerStatus.active) (_hgo : gs.gameOver = true)
    (_hw : gs.winner = some w) :
    (updateScore gs p k).2.2.score = p.score + k ∧
    (p.score + k = gs.targetScore →
      (updateScore gs p k).2.1.winner = some p.id ∧
      (updateScore gs p k).2.1.gameOver = true) := by
  unfold updateScore
  dsimp only
  split_ifs with hb hp
  · refine ⟨rfl, ?_⟩
    intro he
    omega
  · exact ⟨rfl, fun _ => ⟨rfl, rfl⟩⟩
  · refine ⟨rfl, ?_⟩
    intro he
    exact absurd he hp

lemma findIdx?_id_none (pid : String) :
    ∀ (l : List Player) (i : Nat),
      List.findIdx? (fun p => p.id == pid) l i = none ↔ ∀ q ∈ l, q.id ≠ pid := by
  intro l
  induction l with
  | nil =>
    intro i
    constructor
    · intro _ q hq; cases hq
    · intro _; exact List.findIdx?_nil
  | cons a l ih =>
    intro i
    rw [List.findIdx?_cons]
    by_cases hpa : a.id = pid
    · rw [if_pos (by simp [hpa])]
      constructor
      · intro h; cases h
      · intro hall; exact absurd hpa (hall a (List.mem_cons_self a l))
    · rw [if_neg (by simp [hpa])]
      rw [ih (i + 1)]
      constructor
      · intro hall q hq
        rcases List.mem_cons.mp hq with h | h
        · rw [h]; exact hpa
        · exact hall q h
      · intro hall q hq
        exact hall q (List.mem_cons_of_mem a hq)

lemma findIdx?_id_some (pid : String) :
    ∀ (l : List Player) (i j : Nat),
      List.findIdx? (fun p => p.id == pid) l i = some j →
      i ≤ j ∧ ∃ q, l[j - i]? = some q ∧ q.id = pid := by
  intro l
  induction l with
  | nil =>
    intro i j h
    rw [List.findIdx?_nil] at h
    cases h
  | cons a l ih =>
    intro i j h
    rw [List.findIdx?_cons] at h
    by_cases hpa : a.id = pid
    · rw [if_pos (by simp [hpa])] at h
      injection h with hj
      subst hj
      exact ⟨Nat.le_refl i, a, by rw [Nat.sub_self, List.getElem?_cons_zero], hpa⟩
    · rw [if_neg (by simp [hpa])] at h
      obtain ⟨hle, q, hq, hid⟩ := ih (i + 1) j h
      refine ⟨by omega, q, ?_, hid⟩
      have hidx : j - i = (j - (i + 1)) + 1 := by omega
      rw [hidx, List.getElem?_cons_succ]
      exact hq

/-- C7: `addPlayer` rejects (returning false, roster untouched) when the
room is at or above capacity or the id is already present; otherwise it
appends the player, returns true, and starts the game exactly when the
roster reaches two or more with the game not yet started. -/
theorem addPlayer_spec (r : Room) (p : Player) :
    ((r.players.length ≥ r.maxPlayers ∨ ∃ q ∈ r.players, q.id = p.id) →
      addPlayer r p = (false, r)) ∧
    (r.players.length < r.maxPlayers → (∀ q ∈ r.players, q.id ≠ p.id) →
      addPlayer r p = (true, { r with players := r.players ++ [p], gameState := if r.players.length + 1 ≥ 2 ∧ ¬ r.gameState.gameStarted then startGS r.gameState else r.gameState })) := by
  constructor
  · rintro (hcap | ⟨q, hq, hid⟩)
    · unfold addPlayer
      rw [if_pos hcap]
    · unfold addPlayer
      by_cases hcap : r.players.length ≥ r.maxPlayers
      · rw [if_pos hcap]
      · rw [if_neg hcap]
        have hany : r.players.any (fun q => q.id == p.id) = true :=
          List.any_eq_true.mpr ⟨q, hq, by simp [hid]⟩
        rw [if_pos hany]
  · intro hcap hnodup
    unfold addPlayer
    rw [if_neg (by omega)]
    have hany : r.players.any (fun q => q.id == p.id) = false :=
      List.any_eq_false.mpr (fun q hq => by simp [hnodup q hq])
    rw [if_neg (by simp [hany])]
    dsimp only
    rw [List.length_append]
    rfl

/-- C8: `removePlayer` fails on an absent id; otherwise it removes exactly
that player preserving the order of the rest, clamps an out-of-range cursor
to 0, forces gameOver when fewer than two players remain, leaves the winner
untouched (no winner determination on this path), and returns true. -/
theorem removePlayer_spec (r : Room) (pid : String) (c : Nat)
    (hc : r.currentTurnIndex = some c) :
    ((∀ q ∈ r.players, q.id ≠ pid) → removePlayer r pid = (false, r)) ∧
    (∀ i, r.players.findIdx? (fun p => p.id == pid) = some i →
      (removePlayer r pid).1 = true ∧
      (∃ q, r.players[i]? = some q ∧ q.id = pid) ∧
      (removePlayer r pid).2.players = r.players.take i ++ r.players.drop (i + 1) ∧
      (removePlayer r pid).2.currentTurnIndex =
        (if c ≥ (r.players.eraseIdx i).length then some 0 else some c) ∧
      (removePlayer r pid).2.gameState.gameOver =
        (if (r.players.eraseIdx i).length < 2 then true else r.gameState.gameOver) ∧
      (removePlayer r pid).2.gameState.winner = r.gameState.winner ∧
      (removePlayer r pid).2.gameState.gameStarted = r.gameState.gameStarted) := by
  constructor
  · intro habs
    unfold removePlayer
    rw [(findIdx?_id_none pid r.players 0).mpr habs]
  · intro i hidx
    have hsome := findIdx?_id_some pid r.players 0 i hidx
    rw [Nat.sub_zero] at hsome
    unfold removePlayer
    rw [hidx, hc]
    dsimp only
    refine ⟨rfl, hsome.2, ?_, rfl, ?_, ?_, ?_⟩
    · rw [List.eraseIdx_eq_take_drop_succ]
    · split_ifs with h1
      · rfl
      · rfl
    · split_ifs with h1
      · rfl
      · rfl
    · split_ifs with h1
      · rfl
      · rfl

/-- C2: `determineWinner` considers exactly the held/won players as
candidates; with no candidate it clears the winner and touches no player;
otherwise it picks the candidate of maximal score, ties resolved to the
first in iteration order (everything before the pick scores strictly less,
everything after at most as much), records its id as winner and forces its
status to won in place.  The tie [(A,held,16),(B,held,16)] selects A, and
the all-bust pair [(A,bust,19),(B,bust,20)] leaves winner none. -/
theorem determineWinner_spec :
    (∀ (ps : List Player) (i : Nat) (p : Player),
      (i, p) ∈ candidates ps ↔
        (ps[i]? = some p ∧
          (p.status = PlayerStatus.held ∨ p.status = PlayerStatus.won))) ∧
    (∀ (gs : GameState) (ps : List Player), candidates ps = [] →
      determineWinner gs ps = ({ gs with winner := none }, ps)) ∧
    (∀ (gs : GameState) (ps : List Player) (c : Nat × Player) (cs : List (Nat × Player)),
      candidates ps = c :: cs →
      ∃ l1 w l2, c :: cs = l1 ++ w :: l2 ∧
        ps[w.1]? = some w.2 ∧
        (∀ d ∈ l1, d.2.score < w.2.score) ∧
        (∀ d ∈ l2, d.2.score ≤ w.2.score) ∧
        (determineWinner gs ps).1.winner = some w.2.id ∧
        (determineWinner gs ps).2 = ps.set w.1 { w.2 with status := PlayerStatus.won }) ∧
    (determineWinner initGameState
        [{ mkPlayer "A" "A" "sA" 0 with score := 16, status := PlayerStatus.held },
         { mkPlayer "B" "B" "sB" 0 with score := 16, status := PlayerStatus.held }]).1.winner
      = some "A" ∧
    (determineWinner initGameState
        [{ mkPlayer "A" "A" "sA" 0 with score := 19, status := PlayerStatus.bust },
         { mkPlayer "B" "B" "sB" 0 with score := 20, status := PlayerStatus.bust }]).1.winner
      = none := by
  have hchar : ∀ (ps : List Player) (i : Nat) (p : Player),
      (i, p) ∈ candidates ps ↔
        (ps[i]? = some p ∧
          (p.status = PlayerStatus.held ∨ p.status = PlayerStatus.won)) := by
    intro ps i p
    unfold candidates
    rw [List.mem_filter]
    constructor
    · rintro ⟨hmem, hstat⟩
      have h2 := (mem_withIdx ps 0 i p).mp hmem
      rw [Nat.sub_zero] at h2
      exact ⟨h2.2, by simpa using hstat⟩
    · rintro ⟨hget, hstat⟩
      refine ⟨(mem_withIdx ps 0 i p).mpr ⟨Nat.zero_le i, by rwa [Nat.sub_zero]⟩, ?_⟩
      simpa using hstat
  refine ⟨hchar, ?_, ?_, by decide, by decide⟩
  · intro gs ps hnil
    unfold determineWinner
    rw [hnil]
  · intro gs ps c cs hcc
    obtain ⟨w, hfold, hcase⟩ := foldl_pick_spec cs c
    have hwmem : w ∈ candidates ps := by
      rw [hcc]
      rcases hcase with ⟨hwa, _⟩ | ⟨l1, l2, hsplit, _, _, _⟩
      · rw [hwa]; exact List.mem_cons_self c cs
      · rw [hsplit]
        exact List.mem_cons_of_mem c (List.mem_append.mpr (Or.inr (List.mem_cons_self w l2)))
    have hget : ps[w.1]? = some w.2 :=
      ((hchar ps w.1 w.2).mp hwmem).1
    have hres : (determineWinner gs ps).1.winner = some w.2.id ∧
        (determineWinner gs ps).2 = ps.set w.1 { w.2 with status := PlayerStatus.won } := by
      unfold determineWinner
      rw [hcc]
      dsimp only
      rw [hfold]
      exact ⟨rfl, rfl⟩
    rcases hcase with ⟨hwa, hall⟩ | ⟨l1, l2, hsplit, hlt, hbefore, hafter⟩
    · refine ⟨[], w, cs, by rw [hwa]; rfl, hget, ?_, ?_, hres.1, hres.2⟩
      · intro d hd; cases hd
      · intro d hd
        rw [hwa]
        exact hall d hd
    · refine ⟨c :: l1, w, l2, by rw [hsplit]; rfl, hget, ?_, hafter, hres.1, hres.2⟩
      intro d hd
      rcases List.mem_cons.mp hd with h | h
      · rw [h]; exact hlt
      · exact hbefore d h

/-- C3 counterexample: two reachable rooms refute the claimed invariant,
one for each direction of the biconditional.  In `cexRoomBad` (A and B
join, A holds, B leaves) gameOver is true and a held player exists, yet
winner is none: `removePlayer` forced gameOver without invoking winner
determination.  In `cexRoomBad2` (A busts at 19, B wins with a perfect 18,
then B leaves) winner is still B's id, yet the roster holds only a busted
player: `removePlayer` does not clear the winner. -/
theorem reach_invariant_counterexample :
    (Reach cexRoomBad ∧
      ¬ ((cexRoomBad.gameState.winner ≠ none) ↔
          (cexRoomBad.gameState.gameOver = true ∧
            ∃ p ∈ cexRoomBad.players,
              p.status = PlayerStatus.held ∨ p.status = PlayerStatus.won))) ∧
    (Reach cexRoomBad2 ∧
      ¬ ((cexRoomBad2.gameState.winner ≠ none) ↔
          (cexRoomBad2.gameState.gameOver = true ∧
            ∃ p ∈ cexRoomBad2.players,
              p.status = PlayerStatus.held ∨ p.status = PlayerStatus.won))) := by
  refine ⟨⟨?_, by decide⟩, ⟨?_, by decide⟩⟩
  · have h2 : Reach cexRoom2 :=
      Reach.add "B" "B" "sB" 0 (Reach.add "A" "A" "sA" 0 (Reach.init "room1" 4))
    have h3 : Reach cexRoom3 := Reach.hold h2 rfl
    exact Reach.remove "B" h3
  · have hb0 : Reach bRoom0 :=
      Reach.add "B" "B" "sB" 0 (Reach.add "A" "A" "sA" 0 (Reach.init "b" 4))
    have hb1 : Reach bRoom1 := Reach.roll 6 hb0 rfl (by decide) (by decide)
    have hb2 : Reach bRoom2 := Reach.roll 6 hb1 rfl (by decide) (by decide)
    have hb3 : Reach bRoom3 := Reach.roll 6 hb2 rfl (by decide) (by decide)
    have hb4 : Reach bRoom4 := Reach.roll 6 hb3 rfl (by decide) (by decide)
    have hb5 : Reach bRoom5 := Reach.roll 5 hb4 rfl (by decide) (by decide)
    have hb6 : Reach bRoom6 := Reach.roll 5 hb5 rfl (by decide) (by decide)
    have hb7 : Reach bRoom7 := Reach.roll 2 hb6 rfl (by decide) (by decide)
    have hb8 : Reach bRoom8 := Reach.roll 1 hb7 rfl (by decide) (by decide)
    exact Reach.remove "B" hb8

/-- C3 (amended): in every reachable room state a non-none winner implies
gameOver is true.  This is the part of the claimed invariant that the
counterexamples leave standing: gameOver with a held player does not imply
a winner (`removePlayer` ends the round without winner determination), and
a non-none winner does not imply a held or won roster member
(`removePlayer` does not clear the winner when the winning player
leaves). -/
theorem reach_winner_requires_gameOver (r : Room) (h : Reach r) :
    r.gameState.winner ≠ none → r.gameState.gameOver = true := by
  induction h with
  | init id mp => intro hw; exact absurd rfl hw
  | add pid pname sid t _ ih => exact addPlayer_GInv _ _ ih
  | remove pid _ ih => exact removePlayer_GInv _ _ ih
  | @roll r0 r2 p k _ hok _ _ ih =>
    obtain ⟨cur, hcur⟩ := getCurrentPlayer_preserves r0 (some p) r2 hok
    have ih2 : r2.gameState.winner ≠ none → r2.gameState.gameOver = true := by
      rw [hcur]; exact ih
    exact rollApply_GInv _ k ih2
  | @hold r0 r2 p _ hok ih =>
    obtain ⟨cur, hcur⟩ := getCurrentPlayer_preserves r0 (some p) r2 hok
    have ih2 : r2.gameState.winner ≠ none → r2.gameState.gameOver = true := by
      rw [hcur]; exact ih
    exact holdApply_GInv _ ih2
  | reset _ _ => exact resetGame_GInv _

theorem reach_winner_requires_gameOver_witness :
    Reach wRoom4 ∧ wRoom4.gameState.winner ≠ none ∧ wRoom4.gameState.gameOver = true := by
  have h1 : Reach wRoom1 := Reach.add "A" "A" "sA" 0 (Reach.init "w" 4)
  have h2 : Reach (rollApply wRoom1 6) := Reach.roll 6 h1 rfl (by decide) (by decide)
  have h3 : Reach (rollApply (rollApply wRoom1 6) 6) := Reach.roll 6 h2 rfl (by decide) (by decide)
  have h4 : Reach wRoom4 := Reach.roll 6 h3 rfl (by decide) (by decide)
  exact ⟨h4, by decide, reach_winner_requires_gameOver wRoom4 h4 (by decide)⟩

/-- C4 counterexample: one bare `nextTurn()` on the empty room poisons the
cursor with `NaN`; after a player joins, `getCurrentPlayer()` reads
`players[NaN].status` and throws instead of returning a member or none. -/
theorem getCurrentPlayer_counterexample :
    ¬ currentPlayerOk (runC4 "room1" 4 [C4Op.next, C4Op.add (mkPlayer "A" "A" "sA" 0)]) := by
  rintro ⟨res, r2, h, _⟩
  have he : getCurrentPlayer
      (runC4 "room1" 4 [C4Op.next, C4Op.add (mkPlayer "A" "A" "sA" 0)]) = .error () := rfl
  rw [he] at h
  cases h

/-- C4 (amended): for every sequence of addPlayer/removePlayer/nextTurn
calls from a fresh room in which `nextTurn` is never invoked on an empty
roster, `getCurrentPlayer()` terminates without throwing and returns an
active roster member, or none exactly when no member is active. -/
theorem getCurrentPlayer_safe (id : String) (mp : Nat) (ops : List C4Op)
    (hsafe : safeOps (newRoom id mp) ops = true) :
    currentPlayerOk (runC4 id mp ops) := by
  suffices h : CursorWF (runC4 id mp ops) by
    obtain ⟨res, r2, hok, _, _, _, _, _, hres, _⟩ := getCurrentPlayer_spec _ h
    exact ⟨res, r2, hok, hres⟩
  have main : ∀ (l : List C4Op) (r : Room), CursorWF r → safeOps r l = true →
      CursorWF (l.foldl applyC4Op r) := by
    intro l
    induction l with
    | nil => intro r h _; exact h
    | cons op rest ih =>
      intro r h hs
      rw [List.foldl_cons]
      cases op with
      | add p =>
        rw [safeOps] at hs
        exact ih _ (cursorWF_addPlayer r p h) hs
      | remove pid =>
        rw [safeOps] at hs
        exact ih _ (cursorWF_removePlayer r pid h) hs
      | next =>
        rw [safeOps, Bool.and_eq_true] at hs
        refine ih _ (cursorWF_nextTurn r h ?_) hs.2
        intro h0
        have h1 := hs.1
        rw [List.length_eq_zero] at h0
        rw [h0] at h1
        simp at h1
  exact main ops (newRoom id mp) (cursorWF_newRoom id mp) hsafe

theorem getCurrentPlayer_safe_witness :
    safeOps (newRoom "w" 4) [C4Op.add (mkPlayer "A" "A" "sA" 0), C4Op.next] = true ∧
    currentPlayerOk (runC4 "w" 4 [C4Op.add (mkPlayer "A" "A" "sA" 0), C4Op.next]) :=
  ⟨by decide, getCurrentPlayer_safe "w" 4 _ (by decide)⟩

/-- C9: from any reachable room state, two successive `getState()` calls
both succeed and return identical snapshots, even though the first call may
advance the turn cursor past non-active players: the cursor either settles
on an active player or wraps a full lap back to where it started. -/
theorem getState_idempotent (r : Room) (h : Reach r) :
    ∃ s r1 r2, getState r = .ok (s, r1) ∧ getState r1 = .ok (s, r2) ∧ r2 = r1 := by
  obtain ⟨res, r1, hok, _, _, _, _, _, _, hstable⟩ :=
    getCurrentPlayer_spec r (reach_cursorWF r h)
  have h1 : getState r = .ok ({ roomId := r1.id, players := r1.players.map Player.toJSON, currentTurn := turnOf res, gameStarted := r1.gameState.gameStarted, gameOver := r1.gameState.gameOver, winner := r1.gameState.winner }, r1) := by
    unfold getState
    rw [hok]
  have h2 : getState r1 = .ok ({ roomId := r1.id, players := r1.players.map Player.toJSON, currentTurn := turnOf res, gameStarted := r1.gameState.gameStarted, gameOver := r1.gameState.gameOver, winner := r1.gameState.winner }, r1) := by
    unfold getState
    rw [hstable]
  exact ⟨_, r1, r1, h1, h2, rfl⟩

theorem getState_idempotent_witness :
    ∃ s r1 r2, getState (newRoom "w" 4) = .ok (s, r1) ∧ getState r1 = .ok (s, r2) ∧ r2 = r1 :=
  getState_idempotent _ (Reach.init "w" 4)

theorem updateScore_spec_witness :
    initGameState.targetScore = 18 ∧ 1 ≤ 6 ∧ 6 ≤ 6 ∧
    (updateScore initGameState { mkPlayer "A" "Alice" "s" 0 with score := 12 } 6).1.status
      = GameStatus.perfect := by
  have h := updateScore_spec initGameState { mkPlayer "A" "Alice" "s" 0 with score := 12 } 6
    rfl (by decide) (by decide)
  exact ⟨rfl, by decide, by decide, h.2.2.2.2.2.1.mpr (by decide)⟩

theorem determineWinner_spec_witness :
    candidates [mkPlayer "A" "A" "sA" 0] = [] ∧
    determineWinner initGameState [mkPlayer "A" "A" "sA" 0]
      = ({ initGameState with winner := none }, [mkPlayer "A" "A" "sA" 0]) :=
  ⟨by decide, determineWinner_spec.2.1 initGameState [mkPlayer "A" "A" "sA" 0] (by decide)⟩

theorem checkGameOver_spec_witness :
    initGameState.gameOver = false ∧
    checkGameOver initGameState [mkPlayer "A" "A" "sA" 0]
      = (false, initGameState, [mkPlayer "A" "A" "sA" 0]) :=
  ⟨rfl, (checkGameOver_spec initGameState [mkPlayer "A" "A" "sA" 0]).2.2 rfl
    ⟨mkPlayer "A" "A" "sA" 0, by decide, rfl⟩⟩

theorem hold_spec_witness :
    (mkPlayer "A" "A" "sA" 0).status = PlayerStatus.active ∧
    (hold initGameState (mkPlayer "A" "A" "sA" 0)).2.status = PlayerStatus.held := by
  have h := hold_spec initGameState (mkPlayer "A" "A" "sA" 0)
  exact ⟨rfl, (h.2.2 rfl).1⟩

theorem addPlayer_spec_witness :
    addPlayer (newRoom "w" 4) (mkPlayer "A" "A" "sA" 0)
      = (true, { newRoom "w" 4 with players := (newRoom "w" 4).players ++ [mkPlayer "A" "A" "sA" 0], gameState := if (newRoom "w" 4).players.length + 1 ≥ 2 ∧ ¬ (newRoom "w" 4).gameState.gameStarted then startGS (newRoom "w" 4).gameState else (newRoom "w" 4).gameState }) :=
  (addPlayer_spec (newRoom "w" 4) (mkPlayer "A" "A" "sA" 0)).2 (by decide) (by decide)

theorem removePlayer_spec_witness :
    (removePlayer wRoom1 "A").1 = true ∧
    (removePlayer wRoom1 "A").2.gameState.winner = wRoom1.gameState.winner := by
  have h := removePlayer_spec wRoom1 "A" 0 rfl
  have h2 := h.2 0 (by decide)
  exact ⟨h2.1, h2.2.2.2.2.2.1⟩

theorem updateScore_no_precondition_witness :
    (updateScore { initGameState with gameOver := true, winner := some "W" }
      { mkPlayer "B" "B" "sB" 0 with score := 12, status := PlayerStatus.held } 6).2.1.winner
      = some "B" := by
  have h := updateScore_no_precondition
    { initGameState with gameOver := true, winner := some "W" }
    { mkPlayer "B" "B" "sB" 0 with score := 12, status := PlayerStatus.held } 6 "W"
    (by decide) rfl rfl
  exact (h.2 (by decide)).1
